import Mathlib

/-!
Shallow embedding of the GitHub-backed upload service of the Auto3D
repository, taken from `src/app/api/gh-upload/route.ts`.  The route module
holds the configuration (environment constants), the path-derivation helpers
(`slug`, `safeName`), the authorization gate (`requireAuthAllowed`) and three
handlers (`GET` list, `POST` upload, `DELETE` remove).  Remote GitHub calls
are modelled as a trace of `RemoteCall` values together with an oracle
(`RemoteEnv`) supplying the values the remote API would return on success;
every property below concerns either the success path or behaviour occurring
before any remote call, so failure propagation of the remote API (surfaced as
status 500 in the route) is not needed.
-/

namespace Auto3d

/-! ### Character classes used by the route's regular expressions -/

/-- The character class `[a-zA-Z0-9]` of the `slug` regex. -/
def isAlnum (c : Char) : Bool :=
  ('a' ≤ c && c ≤ 'z') || ('A' ≤ c && c ≤ 'Z') || ('0' ≤ c && c ≤ '9')

/-- The combining-mark range `[̀-ͯ]` stripped by `slug`. -/
def isCombiningMark (c : Char) : Bool :=
  0x300 ≤ c.toNat && c.toNat ≤ 0x36F

/-- The character class `[a-zA-Z0-9_.-]` kept by `safeName`. -/
def isSafeChar (c : Char) : Bool :=
  isAlnum c || c = '_' || c = '.' || c = '-'

/-- Unicode NFKD decomposition at character level, as performed by
JavaScript's `String.prototype.normalize('NFKD')` in `slug`.  It is modelled
on the characters this development evaluates concretely: ASCII characters
are NFKD-stable, U+00E9 LATIN SMALL LETTER E WITH ACUTE decomposes to
`e` followed by U+0301 COMBINING ACUTE ACCENT, and U+00B2 SUPERSCRIPT TWO
decomposes (compatibility) to the ASCII digit `2`; every other character is
kept unchanged.  Theorems quantifying over all strings only use the
decomposition through the hypotheses they state about it. -/
def nfkd (c : Char) : List Char :=
  if c = 'é' then ['e', Char.ofNat 0x301]
  else if c = '²' then ['2']
  else [c]

/-- One pass of `replace(/[^a-zA-Z0-9]+/g, '-')`: every maximal run of
non-alphanumeric characters becomes a single `-`.  The flag records whether
the previous character was part of such a run. -/
def collapseGo : Bool → List Char → List Char
  | _, [] => []
  | inRun, c :: cs =>
    if isAlnum c then c :: collapseGo false cs
    else if inRun then collapseGo true cs
    else '-' :: collapseGo true cs

/-- `replace(/[^a-zA-Z0-9]+/g, '-')` on a character list. -/
def collapseRuns (l : List Char) : List Char :=
  collapseGo false l

/-- `replace(/^-+|-+$/g, '')`: strip leading and trailing runs of `-`. -/
def trimDashes (l : List Char) : List Char :=
  ((l.dropWhile (fun c => c = '-')).reverse.dropWhile (fun c => c = '-')).reverse

/-- The character-list body of `slug` from the route:
`normalize('NFKD')`, strip combining marks, collapse non-alphanumeric runs
to `-`, trim `-` at both ends, lowercase. -/
def slugChars (v : List Char) : List Char :=
  ((trimDashes (collapseRuns ((v.flatMap nfkd).filter
    (fun c => !isCombiningMark c))))).map Char.toLower

/-- `slug` from `src/app/api/gh-upload/route.ts` (lines 36-41); the `|| 'x'`
fallback replaces an empty result with the placeholder `"x"`. -/
def slug (v : String) : String :=
  let w := slugChars v.data
  if w.isEmpty then "x" else String.mk w

/-- `safeName` from the route (line 35): every character outside
`[a-zA-Z0-9_.-]` becomes `_`. -/
def safeName (v : String) : String :=
  String.mk (v.data.map (fun c => if isSafeChar c then c else '_'))

/-- JavaScript `String.prototype.split` with a single-character separator:
`"".split(sep)` is `[""]`, and separators at the ends produce empty
segments, exactly as in JS. -/
def splitOnChar (sep : Char) : List Char → List (List Char)
  | [] => [[]]
  | c :: cs =>
    let rest := splitOnChar sep cs
    if c = sep then [] :: rest
    else
      match rest with
      | [] => [[c]]
      | seg :: segs => (c :: seg) :: segs

/-- The extension computation of `POST`:
`(file.name || '').split('.').pop()?.toLowerCase() || ''`.  `split` never
returns an empty array, so `pop` is the last segment; lowercasing is
per-character (`toLowerCase`, ASCII-relevant here). -/
def extOf (name : String) : String :=
  String.mk (((splitOnChar '.' name.data).getLastD []).map Char.toLower)

/-- Whether `pre` is a leading substring of `s`; used for the JS anchored
regex tests (`/^models\/|^images\//`) and `String.prototype.startsWith`. -/
def strStartsWith (pre s : String) : Bool :=
  pre.data.isPrefixOf s.data

/-- JavaScript string comparison `a < b`: lexicographic on code units, a
proper leading fragment compares smaller.  Characters are compared through
their code points (equal to code units for the paths at hand). -/
def charListLt : List Char → List Char → Bool
  | _, [] => false
  | [], _ :: _ => true
  | a :: as, b :: bs =>
    if a.toNat = b.toNat then charListLt as bs else decide (a.toNat < b.toNat)

/-- JS `a < b` on strings. -/
def strLt (a b : String) : Bool :=
  charListLt a.data b.data

/-! ### Base64, as produced by `Buffer.toString('base64')` -/

/-- The standard base64 alphabet. -/
def base64Table : List Char :=
  "ABCDEFGHIJKLMNOPQRSTUVWXYZabcdefghijklmnopqrstuvwxyz0123456789+/".data

/-- Character for one sextet. -/
def b64Char (n : Nat) : Char :=
  base64Table.getD n '='

/-- Base64-encode a byte list, three bytes to four characters, `=`-padded. -/
def base64Chunks : List Nat → List Char
  | [] => []
  | [a] => [b64Char (a / 4), b64Char (a % 4 * 16), '=', '=']
  | [a, b] => [b64Char (a / 4), b64Char (a % 4 * 16 + b / 16), b64Char (b % 16 * 4), '=']
  | a :: b :: c :: rest =>
    b64Char (a / 4) :: b64Char (a % 4 * 16 + b / 16) :: b64Char (b % 16 * 4 + c / 64) ::
      b64Char (c % 64) :: base64Chunks rest

/-- `Buffer.from(bytes).toString('base64')`. -/
def base64 (bytes : List Nat) : String :=
  String.mk (base64Chunks bytes)

/-! ### Configuration and authorization -/

/-- The environment-derived module constants of the route:
`GH_TOKEN`, `GH_REPO` ("owner/repo"), `GH_BRANCH`, `REQUIRE_PR`,
and the parsed `ALLOWED_UPLOADERS` allow-list. -/
structure Config where
  ghToken : String
  ghRepo : String
  ghBranch : String
  requirePr : Bool
  allowedUploaders : List String
  deriving DecidableEq

/-- `const [OWNER, REPO] = GH_REPO.includes('/') ? GH_REPO.split('/') : ['', '']`. -/
def ownerRepo (cfg : Config) : String × String :=
  if cfg.ghRepo.data.contains '/' then
    let parts := splitOnChar '/' cfg.ghRepo.data
    (String.mk (parts.getD 0 []), String.mk (parts.getD 1 []))
  else ("", "")

/-- `badEnv()` from the route (line 33): any of the four constants empty. -/
def badEnv (cfg : Config) : Bool :=
  cfg.ghToken == "" || cfg.ghRepo == "" || (ownerRepo cfg).1 == "" || (ownerRepo cfg).2 == ""

/-- JS truthiness of the session login (`!!login`): absent or empty string is
falsy.  The NextAuth session callback in
`src/app/api/auth/[...nextauth]/route.ts` maps a missing GitHub login to
`null`, so the empty-string case never actually reaches the route. -/
def jsTruthy : Option String → Bool
  | none => false
  | some s => !(s == "")

/-- The `allowed` component of `requireAuthAllowed` (route lines 43-48):
a truthy login, and membership in `ALLOWED_UPLOADERS` unless that list is
empty. -/
def requireAuthAllowed (cfg : Config) (login : Option String) : Bool :=
  jsTruthy login && (cfg.allowedUploaders.isEmpty || cfg.allowedUploaders.contains (login.getD ""))

/-- `cdnUrl` from the route (lines 30-32). -/
def cdnUrl (cfg : Config) (path : String) : String :=
  "https://cdn.jsdelivr.net/gh/" ++ cfg.ghRepo ++ "@" ++ cfg.ghBranch ++ "/" ++ path

/-- The ref component of a jsDelivr URL: the characters between the first
`@` and the `/` that follows it. -/
def urlRef (u : String) : String :=
  String.mk (((splitOnChar '@' u.data).getD 1 []).takeWhile (fun c => c != '/'))

/-! ### Requests, responses, remote calls -/

/-- One outbound GitHub API request, in the order the handlers issue them. -/
inductive RemoteCall where
  | getHeadSha (branch : String)
  | createBranch (fromSha : String) (branch : String)
  | putFile (path : String) (contentB64 : String) (message : String) (branch : String)
  | deleteFile (path : String) (message : String) (branch : String) (sha : String)
  | getFileSha (path : String) (branch : String)
  | openPr (fromBranch : String) (toBranch : String) (title : String)
  | getTree (branch : String)
  deriving DecidableEq

/-- Values the remote API returns on the success paths: the head sha of the
target branch, the sha of the file being deleted (as read on the target
branch and on the review branch), and the `html_url` of an opened pull
request. -/
structure RemoteEnv where
  headSha : String
  fileShaMain : String
  fileShaBranch : String
  prUrl : String
  deriving DecidableEq

/-- The uploaded form file: its `name` and raw bytes. -/
structure FileData where
  name : String
  bytes : List Nat
  deriving DecidableEq

/-- The multipart form fields of `POST`; `none` models an absent field. -/
structure UploadForm where
  file : Option FileData
  brand : Option String
  model : Option String
  kind : Option String
  pr : Option String
  deriving DecidableEq

/-- `String(form.get(k) || dflt)`: an absent or empty field falls back to
the default. -/
def formStr (v : Option String) (dflt : String) : String :=
  match v with
  | none => dflt
  | some s => if s == "" then dflt else s

/-- The JSON body shape shared by the upload and delete responses; fields
absent from a given response are `none`. -/
structure ApiResponse where
  status : Nat
  ok : Bool
  error : Option String := none
  path : Option String := none
  url : Option String := none
  repo : Option String := none
  branch : Option String := none
  pr : Option String := none
  deleted : Option String := none
  deriving DecidableEq

/-- The storage path computed by `POST` (line 160):
`{base}/{slug(brand)}/{slug(model)}/{Date.now()}-{safeName(file.name)}`,
with `base` chosen from the `kind` field. -/
def storagePath (kind brand model : String) (now : Nat) (fname : String) : String :=
  (if kind == "model" then "models" else "images") ++ "/" ++ slug brand ++ "/" ++
    slug model ++ "/" ++ Nat.repr now ++ "-" ++ safeName fname

/-- The `POST` upload handler (route lines 139-180).  `now` is the
`Date.now()` read used in the storage path, `nowPr` the later read used in
the review-branch name, `rand` the `Math.random().toString(36).slice(2,8)`
suffix.  Returns the JSON response together with the trace of remote calls
issued (success assumed, values from `env`). -/
def POST (cfg : Config) (login : Option String) (form : UploadForm)
    (now nowPr : Nat) (rand : String) (env : RemoteEnv) :
    ApiResponse × List RemoteCall :=
  if badEnv cfg then
    ({ status := 500, ok := false, error := some "Missing GH_TOKEN or GH_REPO env" }, [])
  else if !requireAuthAllowed cfg login then
    ({ status := 403, ok := false, error := some "Forbidden" }, [])
  else
    match form.file with
    | none => ({ status := 400, ok := false, error := some "No file" }, [])
    | some file =>
      let brand := formStr form.brand "brand"
      let model := formStr form.model "model"
      let kind := formStr form.kind "model"
      let forcePr := (formStr form.pr "" == "1") || cfg.requirePr
      let ext := extOf file.name
      if kind == "model" && ext != "glb" then
        ({ status := 400, ok := false, error := some "Only .glb allowed" }, [])
      else if kind == "image" && !(["png", "jpg", "jpeg", "webp"].contains ext) then
        ({ status := 400, ok := false, error := some "Images only: png/jpg/webp" }, [])
      else
        let path := storagePath kind brand model now file.name
        let contentB64 := base64 file.bytes
        let message := "[auto3dm] upload " ++ path ++ " by @" ++ login.getD ""
        if !forcePr then
          ({ status := 200, ok := true, path := some path, url := some (cdnUrl cfg path),
             repo := some cfg.ghRepo, branch := some cfg.ghBranch },
           [RemoteCall.putFile path contentB64 message cfg.ghBranch])
        else
          let prBranch := "auto3dm/upload-" ++ Nat.repr nowPr ++ "-" ++ rand
          ({ status := 200, ok := true, path := some path, url := some (cdnUrl cfg path),
             repo := some cfg.ghRepo, branch := some cfg.ghBranch, pr := some env.prUrl },
           [RemoteCall.getHeadSha cfg.ghBranch,
            RemoteCall.createBranch env.headSha prBranch,
            RemoteCall.putFile path contentB64 message prBranch,
            RemoteCall.openPr prBranch cfg.ghBranch ("[auto3dm] upload " ++ path)])

/-- The `DELETE` handler (route lines 183-212).  `body` is the parsed JSON
`path` field (`none` when absent or not a string).  The anchored regex
`/^models\/|^images\//` requires the path to start with `models/` or
`images/`. -/
def DELETE (cfg : Config) (login : Option String) (body : Option String)
    (nowPr : Nat) (rand : String) (env : RemoteEnv) :
    ApiResponse × List RemoteCall :=
  if badEnv cfg then
    ({ status := 500, ok := false, error := some "Missing GH_TOKEN or GH_REPO env" }, [])
  else if !requireAuthAllowed cfg login then
    ({ status := 403, ok := false, error := some "Forbidden" }, [])
  else
    match body with
    | none => ({ status := 400, ok := false, error := some "Path required" }, [])
    | some path =>
      if path == "" then
        ({ status := 400, ok := false, error := some "Path required" }, [])
      else if !(strStartsWith "models/" path || strStartsWith "images/" path) then
        ({ status := 400, ok := false, error := some "Only models/ or images/ allowed" }, [])
      else
        let message := "[auto3dm] delete " ++ path ++ " by @" ++ login.getD ""
        if !cfg.requirePr then
          ({ status := 200, ok := true, deleted := some path },
           [RemoteCall.getFileSha path cfg.ghBranch,
            RemoteCall.deleteFile path message cfg.ghBranch env.fileShaMain])
        else
          let prBranch := "auto3dm/delete-" ++ Nat.repr nowPr ++ "-" ++ rand
          ({ status := 200, ok := true, deleted := some path, pr := some env.prUrl },
           [RemoteCall.getFileSha path cfg.ghBranch,
            RemoteCall.getHeadSha cfg.ghBranch,
            RemoteCall.createBranch env.headSha prBranch,
            RemoteCall.getFileSha path prBranch,
            RemoteCall.deleteFile path message prBranch env.fileShaBranch,
            RemoteCall.openPr prBranch cfg.ghBranch ("[auto3dm] delete " ++ path)])

/-! ### The `GET ?list=1` branch -/

/-- One entry of the recursive git tree returned by the remote API. -/
structure TreeEntry where
  type : String
  path : String
  size : Option Nat
  sha : String
  deriving DecidableEq

/-- One item of the list response. -/
structure ListItem where
  path : String
  size : Nat
  sha : String
  url : String
  deriving DecidableEq

/-- The map step of the list branch: `{path, size: n.size || 0, sha, url}`. -/
def viewEntry (cfg : Config) (n : TreeEntry) : ListItem :=
  { path := n.path, size := n.size.getD 0, sha := n.sha, url := cdnUrl cfg n.path }

/-- Descending-by-path order imposed by the comparator
`(a, b) => (a.path < b.path ? 1 : -1)`. -/
def pathGe (a b : ListItem) : Prop :=
  strLt a.path b.path = false

instance : DecidableRel pathGe :=
  fun a b => instDecidableEqBool (strLt a.path b.path) false

/-- `(searchParams.get('prefix') || '').replace(/^\/+/, '')`. -/
def stripLeadingSlashes (s : String) : String :=
  String.mk (s.data.dropWhile (fun c => c = '/'))

/-- The response of `GET ?list=1`. -/
structure GetListResponse where
  status : Nat
  ok : Bool
  error : Option String := none
  repo : Option String := none
  branch : Option String := none
  items : List ListItem := []
  deriving DecidableEq

/-- The `list` branch of `GET` (route lines 113-128): gate on the allow-list,
strip leading slashes from the prefix, fetch the recursive tree, keep blobs
whose path starts with `prefix + '/'` (all blobs when the prefix is empty),
map to items, sort by path descending, and keep the first 200. -/
def GETlist (cfg : Config) (login : Option String) (rawPrefix : String)
    (tree : List TreeEntry) : GetListResponse × List RemoteCall :=
  if badEnv cfg then
    ({ status := 500, ok := false, error := some "Missing GH_TOKEN or GH_REPO env" }, [])
  else if !requireAuthAllowed cfg login then
    ({ status := 403, ok := false, error := some "Forbidden" }, [])
  else
    let pfx := stripLeadingSlashes rawPrefix
    let items :=
      (List.insertionSort pathGe
        ((tree.filter
          (fun n => n.type == "blob" && (pfx == "" || strStartsWith (pfx ++ "/") n.path))).map
            (viewEntry cfg))).take 200
    ({ status := 200, ok := true, repo := some cfg.ghRepo, branch := some cfg.ghBranch,
       items := items },
     [RemoteCall.getTree cfg.ghBranch])

/-! ### Verification helpers (not part of the route) -/

/-- A concrete configuration used by witnesses and counterexamples. -/
def cfgA : Config :=
  { ghToken := "t", ghRepo := "owner/repo", ghBranch := "main", requirePr := false,
    allowedUploaders := [] }

/-- A concrete remote oracle used by witnesses and counterexamples. -/
def envA : RemoteEnv :=
  { headSha := "headsha", fileShaMain := "sha1", fileShaBranch := "sha2",
    prUrl := "https://github.com/owner/repo/pull/1" }

/-- A concrete valid image-upload form. -/
def formA : UploadForm :=
  { file := some { name := "preview.JPG", bytes := [1, 2, 3] }, brand := some "Kia",
    model := some "Carnival", kind := some "image", pr := none }

/-- The same form with the `pr` flag set, selecting the review path. -/
def formPr : UploadForm :=
  { formA with pr := some "1" }

/-- A concrete recursive-tree fixture. -/
def treeA : List TreeEntry :=
  [{ type := "blob", path := "models/a/1-x.glb", size := some 3, sha := "s1" },
   { type := "blob", path := "models/a/2-y.glb", size := none, sha := "s2" },
   { type := "tree", path := "models/a", size := none, sha := "s3" }]

/-- Numeric value of a decimal digit character. -/
def digitVal (c : Char) : Nat :=
  c.toNat - '0'.toNat

/-- Value of a decimal digit string, most significant first. -/
def decValue (l : List Char) : Nat :=
  l.foldl (fun a c => 10 * a + digitVal c) 0

/-! ## Theorems -/

/-! ### Decimal representation of `Date.now()` values -/

theorem toDigitsCore_append (n : Nat) : ∀ (f : Nat) (ds : List Char), n < f →
    Nat.toDigitsCore 10 f n ds = Nat.toDigits 10 n ++ ds := by
  induction n using Nat.strong_induction_on with
  | _ n ih =>
    intro f ds hf
    obtain ⟨f, rfl⟩ : ∃ g, f = g + 1 := ⟨f - 1, by omega⟩
    by_cases h10 : n / 10 = 0
    · simp [Nat.toDigitsCore, Nat.toDigits, h10]
    · have hpos : 0 < n := by omega
      have hdiv : n / 10 < n := Nat.div_lt_self hpos (by decide)
      have step : ∀ (g : Nat) (es : List Char),
          Nat.toDigitsCore 10 (g + 1) n es
            = Nat.toDigitsCore 10 g (n / 10) (Nat.digitChar (n % 10) :: es) := by
        intro g es
        simp [Nat.toDigitsCore, h10]
      rw [step f ds, ih (n / 10) hdiv f _ (by omega)]
      have hrest : Nat.toDigits 10 n
          = Nat.toDigits 10 (n / 10) ++ [Nat.digitChar (n % 10)] := by
        show Nat.toDigitsCore 10 (n + 1) n [] = _
        rw [step n [], ih (n / 10) hdiv n _ (by omega)]
      rw [hrest, List.append_assoc]
      rfl

theorem toDigits_ten_eq (n : Nat) :
    Nat.toDigits 10 n =
      if n < 10 then [Nat.digitChar n]
      else Nat.toDigits 10 (n / 10) ++ [Nat.digitChar (n % 10)] := by
  by_cases h : n < 10
  · have h10 : n / 10 = 0 := by omega
    have hm : n % 10 = n := by omega
    simp [Nat.toDigits, Nat.toDigitsCore, h10, h, hm]
  · have h10 : ¬ n / 10 = 0 := by omega
    rw [if_neg h]
    show Nat.toDigitsCore 10 (n + 1) n [] = _
    rw [show Nat.toDigitsCore 10 (n + 1) n []
          = Nat.toDigitsCore 10 n (n / 10) [Nat.digitChar (n % 10)] by
        simp [Nat.toDigitsCore, h10]]
    exact toDigitsCore_append (n / 10) n _
      (by have := Nat.div_lt_self (show 0 < n by omega) (show 1 < 10 by decide); omega)

theorem digitChar_isDigit {n : Nat} (h : n < 10) : (Nat.digitChar n).isDigit = true := by
  interval_cases n <;> decide

theorem mem_toDigits_isDigit (n : Nat) : ∀ c ∈ Nat.toDigits 10 n, c.isDigit = true := by
  induction n using Nat.strong_induction_on with
  | _ n ih =>
    intro c hc
    rw [toDigits_ten_eq] at hc
    by_cases h : n < 10
    · rw [if_pos h] at hc
      simp only [List.mem_singleton] at hc
      rw [hc]
      exact digitChar_isDigit h
    · rw [if_neg h] at hc
      rcases List.mem_append.mp hc with h1 | h2
      · exact ih (n / 10) (Nat.div_lt_self (by omega) (by decide)) c h1
      · simp only [List.mem_singleton] at h2
        rw [h2]
        exact digitChar_isDigit (by omega)

theorem dash_not_mem_toDigits (n : Nat) : '-' ∉ Nat.toDigits 10 n := by
  intro hmem
  exact absurd (mem_toDigits_isDigit n _ hmem) (by decide)

theorem decValue_append_singleton (l : List Char) (c : Char) :
    decValue (l ++ [c]) = 10 * decValue l + digitVal c := by
  simp [decValue, List.foldl_append]

theorem digitVal_digitChar {n : Nat} (h : n < 10) : digitVal (Nat.digitChar n) = n := by
  interval_cases n <;> decide

theorem decValue_toDigits (n : Nat) : decValue (Nat.toDigits 10 n) = n := by
  induction n using Nat.strong_induction_on with
  | _ n ih =>
    rw [toDigits_ten_eq]
    by_cases h : n < 10
    · rw [if_pos h]
      simp [decValue, digitVal_digitChar h]
    · rw [if_neg h, decValue_append_singleton,
        ih (n / 10) (Nat.div_lt_self (by omega) (by decide)),
        digitVal_digitChar (show n % 10 < 10 by omega)]
      omega

theorem natRepr_injective {a b : Nat} (h : Nat.repr a = Nat.repr b) : a = b := by
  have hd : Nat.toDigits 10 a = Nat.toDigits 10 b := congrArg String.data h
  have hv := congrArg decValue hd
  rwa [decValue_toDigits, decValue_toDigits] at hv

/-! ### List and string helper lemmas -/

theorem append_cons_cancel {sep : Char} :
    ∀ {as : List Char} {bs cs ds : List Char}, as ++ sep :: cs = bs ++ sep :: ds →
      sep ∉ as → sep ∉ bs → as = bs := by
  intro as
  induction as with
  | nil =>
    intro bs cs ds h _ hb
    cases bs with
    | nil => rfl
    | cons x xs =>
      simp only [List.nil_append, List.cons_append, List.cons.injEq] at h
      refine absurd ?_ hb
      rw [h.1]
      exact List.mem_cons_self x xs
  | cons a as ih =>
    intro bs cs ds h ha hb
    cases bs with
    | nil =>
      simp only [List.cons_append, List.nil_append, List.cons.injEq] at h
      refine absurd ?_ ha
      rw [← h.1]
      exact List.mem_cons_self a as
    | cons x xs =>
      simp only [List.cons_append, List.cons.injEq] at h
      rw [List.mem_cons, not_or] at ha hb
      rw [h.1, ih h.2 ha.2 hb.2]

theorem charListLt_asymm : ∀ as bs, charListLt as bs = true → charListLt bs as = false := by
  intro as
  induction as with
  | nil =>
    intro bs h
    cases bs with
    | nil => simp [charListLt] at h
    | cons x xs => rfl
  | cons a as ih =>
    intro bs h
    cases bs with
    | nil => simp [charListLt] at h
    | cons b bs =>
      simp only [charListLt] at h ⊢
      by_cases hab : a.toNat = b.toNat
      · rw [if_pos hab] at h
        rw [if_pos hab.symm]
        exact ih bs h
      · rw [if_neg hab] at h
        rw [if_neg (fun hba => hab hba.symm)]
        simp only [decide_eq_true_eq] at h
        simp only [decide_eq_false_iff_not]
        omega

theorem charListLt_ge_trans :
    ∀ as bs cs, charListLt as bs = false → charListLt bs cs = false →
      charListLt as cs = false := by
  intro as
  induction as with
  | nil =>
    intro bs cs h1 h2
    cases bs with
    | nil =>
      cases cs with
      | nil => rfl
      | cons z zs => simp [charListLt] at h2
    | cons y ys => simp [charListLt] at h1
  | cons a as ih =>
    intro bs cs h1 h2
    cases cs with
    | nil => rfl
    | cons c cs =>
      cases bs with
      | nil => simp [charListLt] at h2
      | cons b bs =>
        simp only [charListLt] at h1 h2 ⊢
        by_cases hab : a.toNat = b.toNat
        · rw [if_pos hab] at h1
          by_cases hbc : b.toNat = c.toNat
          · rw [if_pos hbc] at h2
            rw [if_pos (hab.trans hbc)]
            exact ih bs cs h1 h2
          · rw [if_neg hbc] at h2
            simp only [decide_eq_false_iff_not] at h2
            rw [if_neg (show ¬ a.toNat = c.toNat by omega)]
            simp only [decide_eq_false_iff_not]
            omega
        · rw [if_neg hab] at h1
          simp only [decide_eq_false_iff_not] at h1
          by_cases hbc : b.toNat = c.toNat
          · rw [if_neg (show ¬ a.toNat = c.toNat by omega)]
            simp only [decide_eq_false_iff_not]
            omega
          · rw [if_neg hbc] at h2
            simp only [decide_eq_false_iff_not] at h2
            rw [if_neg (show ¬ a.toNat = c.toNat by omega)]
            simp only [decide_eq_false_iff_not]
            omega

theorem pathGe_total (a b : ListItem) : pathGe a b ∨ pathGe b a := by
  unfold pathGe strLt
  by_cases h : charListLt a.path.data b.path.data = true
  · exact Or.inr (charListLt_asymm _ _ h)
  · exact Or.inl (by revert h; cases charListLt a.path.data b.path.data <;> simp)

theorem pathGe_trans (a b c : ListItem) (h1 : pathGe a b) (h2 : pathGe b c) : pathGe a c :=
  charListLt_ge_trans _ _ _ h1 h2

theorem splitOnChar_ne_nil (sep : Char) : ∀ l, splitOnChar sep l ≠ [] := by
  intro l
  cases l with
  | nil => simp [splitOnChar]
  | cons c cs =>
    simp only [splitOnChar]
    by_cases h : c = sep
    · simp [h]
    · rw [if_neg h]
      cases splitOnChar sep cs <;> simp

theorem splitOnChar_cons_self (sep : Char) (l : List Char) :
    splitOnChar sep (sep :: l) = [] :: splitOnChar sep l := by
  simp [splitOnChar]

theorem splitOnChar_append {sep : Char} :
    ∀ (A : List Char) {B : List Char} {s : List Char} {ss : List (List Char)},
      sep ∉ A → splitOnChar sep B = s :: ss →
      splitOnChar sep (A ++ B) = (A ++ s) :: ss := by
  intro A
  induction A with
  | nil =>
    intro B s ss _ hB
    simpa using hB
  | cons a as ih =>
    intro B s ss hmem hB
    rw [List.mem_cons, not_or] at hmem
    have ha : ¬ a = sep := fun h => hmem.1 h.symm
    simp only [List.cons_append, splitOnChar, if_neg ha, List.append_eq]
    rw [ih hmem.2 hB]

theorem takeWhile_append_stop {p : Char → Bool} :
    ∀ (A : List Char) {x : Char} {B : List Char},
      (∀ c ∈ A, p c = true) → p x = false →
      List.takeWhile p (A ++ x :: B) = A := by
  intro A
  induction A with
  | nil =>
    intro x B _ hx
    simp [List.takeWhile_cons, hx]
  | cons a as ih =>
    intro x B hA hx
    have ha : p a = true := hA a (List.mem_cons_self a as)
    simp [List.takeWhile_cons, ha, ih (fun c hc => hA c (List.mem_cons_of_mem _ hc)) hx]

theorem urlRef_cdnUrl (cfg : Config) (path : String)
    (hr : '@' ∉ cfg.ghRepo.data) (hb1 : '@' ∉ cfg.ghBranch.data)
    (hb2 : '/' ∉ cfg.ghBranch.data) :
    urlRef (cdnUrl cfg path) = cfg.ghBranch := by
  unfold urlRef
  have hdata : (cdnUrl cfg path).data
      = ("https://cdn.jsdelivr.net/gh/".data ++ cfg.ghRepo.data)
        ++ ('@' :: (cfg.ghBranch.data ++ '/' :: path.data)) := by
    simp [cdnUrl, String.data_append]
  have hA : '@' ∉ ("https://cdn.jsdelivr.net/gh/".data ++ cfg.ghRepo.data) := by
    intro h
    rcases List.mem_append.mp h with h | h
    · exact absurd h (by decide)
    · exact hr h
  cases hP : splitOnChar '@' path.data with
  | nil => exact absurd hP (splitOnChar_ne_nil '@' path.data)
  | cons s ss =>
    have hC : splitOnChar '@' (cfg.ghBranch.data ++ '/' :: path.data)
        = ((cfg.ghBranch.data ++ ['/']) ++ s) :: ss := by
      have hA2 : '@' ∉ cfg.ghBranch.data ++ ['/'] := by
        intro h
        rcases List.mem_append.mp h with h | h
        · exact hb1 h
        · exact absurd h (by decide)
      have := splitOnChar_append (cfg.ghBranch.data ++ ['/']) hA2 hP
      simpa using this
    rw [hdata,
      splitOnChar_append ("https://cdn.jsdelivr.net/gh/".data ++ cfg.ghRepo.data) hA
        (by rw [splitOnChar_cons_self, hC])]
    have hall : ∀ c ∈ cfg.ghBranch.data, (c != '/') = true := by
      intro c hc
      simp only [bne_iff_ne, ne_eq]
      exact fun he => hb2 (he ▸ hc)
    have ht := @takeWhile_append_stop (fun c => c != '/') cfg.ghBranch.data '/' s hall (by decide)
    simp only [List.getD, List.get?_cons_succ, List.get?_cons_zero, Option.getD_some,
      List.getElem?_cons_succ, List.getElem?_cons_zero]
    rw [show (cfg.ghBranch.data ++ ['/']) ++ s = cfg.ghBranch.data ++ '/' :: s by simp, ht]

theorem strStartsWith_append (p X : String) : strStartsWith p (p ++ X) = true := by
  unfold strStartsWith
  rw [String.data_append, List.isPrefixOf_iff_prefix]
  exact List.prefix_append _ _

theorem ne_of_not_strStartsWith {b p X : String} (h : strStartsWith p b = false) :
    b ≠ p ++ X := by
  intro he
  rw [he, strStartsWith_append] at h
  simp at h

/-! ### `slug` lemmas -/

theorem collapseGo_true_all_nonalnum :
    ∀ l, (∀ c ∈ l, isAlnum c = false) → collapseGo true l = [] := by
  intro l
  induction l with
  | nil => intro _; rfl
  | cons c cs ih =>
    intro h
    have hc : isAlnum c = false := h c (List.mem_cons_self c cs)
    simp [collapseGo, hc, ih (fun d hd => h d (List.mem_cons_of_mem _ hd))]

theorem collapseGo_false_all_nonalnum :
    ∀ l, (∀ c ∈ l, isAlnum c = false) → l ≠ [] → collapseGo false l = ['-'] := by
  intro l
  cases l with
  | nil => intro _ h; exact absurd rfl h
  | cons c cs =>
    intro h _
    have hc : isAlnum c = false := h c (List.mem_cons_self c cs)
    simp [collapseGo, hc,
      collapseGo_true_all_nonalnum cs (fun d hd => h d (List.mem_cons_of_mem _ hd))]

theorem slug_ne_empty (s : String) : slug s ≠ "" := by
  show (if (slugChars s.data).isEmpty then "x" else String.mk (slugChars s.data)) ≠ ""
  by_cases h : (slugChars s.data).isEmpty
  · rw [if_pos h]
    decide
  · rw [if_neg h]
    intro hx
    have hw : slugChars s.data = [] := congrArg String.data hx
    rw [hw] at h
    exact h rfl

theorem slug_placeholder {s : String}
    (h : ∀ c ∈ s.data, ∀ d ∈ nfkd c, isAlnum d = false) : slug s = "x" := by
  have hall : ∀ c ∈ (s.data.flatMap nfkd).filter (fun c => !isCombiningMark c),
      isAlnum c = false := by
    intro c hc
    rw [List.mem_filter] at hc
    rcases List.mem_flatMap.mp hc.1 with ⟨a, ha, hd⟩
    exact h a ha c hd
  show (if (slugChars s.data).isEmpty then "x" else String.mk (slugChars s.data)) = "x"
  have hnil : slugChars s.data = [] := by
    unfold slugChars collapseRuns
    by_cases hn : (s.data.flatMap nfkd).filter (fun c => !isCombiningMark c) = []
    · rw [hn]
      rfl
    · rw [collapseGo_false_all_nonalnum _ hall hn]
      rfl
  rw [hnil]
  rfl

/-! ### Storage-path injectivity in the timestamp -/

theorem storagePath_ts_injective (k b m f : String) {t1 t2 : Nat}
    (h : storagePath k b m t1 f = storagePath k b m t2 f) : t1 = t2 := by
  have hd := congrArg String.data h
  simp only [storagePath, String.data_append, List.append_assoc] at hd
  have h1 := List.append_cancel_left hd
  have h2 := List.append_cancel_left h1
  have h3 := List.append_cancel_left h2
  have h4 := List.append_cancel_left h3
  have h5 := List.append_cancel_left h4
  have h6 := List.append_cancel_left h5
  simp only [List.singleton_append] at h6
  have hD : (Nat.repr t1).data = (Nat.repr t2).data :=
    append_cons_cancel h6 (dash_not_mem_toDigits t1) (dash_not_mem_toDigits t2)
  have hv : decValue (Nat.toDigits 10 t1) = decValue (Nat.toDigits 10 t2) :=
    congrArg decValue hD
  rwa [decValue_toDigits, decValue_toDigits] at hv

/-! ### Characterizations of the handlers under explicit guard outcomes -/

theorem POST_forbidden (cfg : Config) (login : Option String) (form : UploadForm)
    (now nowPr : Nat) (rand : String) (env : RemoteEnv)
    (henv : badEnv cfg = false) (hna : requireAuthAllowed cfg login = false) :
    POST cfg login form now nowPr rand env
      = ({ status := 403, ok := false, error := some "Forbidden" }, []) := by
  unfold POST
  rw [henv, hna]
  rfl

theorem DELETE_forbidden (cfg : Config) (login : Option String) (body : Option String)
    (nowPr : Nat) (rand : String) (env : RemoteEnv)
    (henv : badEnv cfg = false) (hna : requireAuthAllowed cfg login = false) :
    DELETE cfg login body nowPr rand env
      = ({ status := 403, ok := false, error := some "Forbidden" }, []) := by
  unfold DELETE
  rw [henv, hna]
  rfl

theorem POST_reject_model_ext (cfg : Config) (login : Option String) (form : UploadForm)
    (file : FileData) (now nowPr : Nat) (rand : String) (env : RemoteEnv)
    (henv : badEnv cfg = false) (hauth : requireAuthAllowed cfg login = true)
    (hfile : form.file = some file)
    (hm : (formStr form.kind "model" == "model" && extOf file.name != "glb") = true) :
    POST cfg login form now nowPr rand env
      = ({ status := 400, ok := false, error := some "Only .glb allowed" }, []) := by
  unfold POST
  rw [henv, hauth, hfile]
  simp only [hm, if_true]
  rfl

theorem POST_reject_image_ext (cfg : Config) (login : Option String) (form : UploadForm)
    (file : FileData) (now nowPr : Nat) (rand : String) (env : RemoteEnv)
    (henv : badEnv cfg = false) (hauth : requireAuthAllowed cfg login = true)
    (hfile : form.file = some file)
    (hmodel : (formStr form.kind "model" == "model" && extOf file.name != "glb") = false)
    (himage : (formStr form.kind "model" == "image"
      && !(["png", "jpg", "jpeg", "webp"].contains (extOf file.name))) = true) :
    POST cfg login form now nowPr rand env
      = ({ status := 400, ok := false, error := some "Images only: png/jpg/webp" }, []) := by
  unfold POST
  rw [henv, hauth, hfile]
  simp only [hmodel, himage]
  rfl

theorem POST_direct_eq (cfg : Config) (login : Option String) (form : UploadForm)
    (file : FileData) (now nowPr : Nat) (rand : String) (env : RemoteEnv)
    (henv : badEnv cfg = false) (hauth : requireAuthAllowed cfg login = true)
    (hfile : form.file = some file)
    (hmodel : (formStr form.kind "model" == "model" && extOf file.name != "glb") = false)
    (himage : (formStr form.kind "model" == "image"
      && !(["png", "jpg", "jpeg", "webp"].contains (extOf file.name))) = false)
    (hpr : ((formStr form.pr "" == "1") || cfg.requirePr) = false) :
    POST cfg login form now nowPr rand env
      = ({ status := 200, ok := true,
           path := some (storagePath (formStr form.kind "model") (formStr form.brand "brand")
             (formStr form.model "model") now file.name),
           url := some (cdnUrl cfg (storagePath (formStr form.kind "model")
             (formStr form.brand "brand") (formStr form.model "model") now file.name)),
           repo := some cfg.ghRepo, branch := some cfg.ghBranch },
         [RemoteCall.putFile
            (storagePath (formStr form.kind "model") (formStr form.brand "brand")
              (formStr form.model "model") now file.name)
            (base64 file.bytes)
            ("[auto3dm] upload " ++ storagePath (formStr form.kind "model")
              (formStr form.brand "brand") (formStr form.model "model") now file.name
              ++ " by @" ++ login.getD "")
            cfg.ghBranch]) := by
  unfold POST
  rw [henv, hauth, hfile]
  simp only [hmodel, himage, hpr]
  rfl

theorem POST_review_eq (cfg : Config) (login : Option String) (form : UploadForm)
    (file : FileData) (now nowPr : Nat) (rand : String) (env : RemoteEnv)
    (henv : badEnv cfg = false) (hauth : requireAuthAllowed cfg login = true)
    (hfile : form.file = some file)
    (hmodel : (formStr form.kind "model" == "model" && extOf file.name != "glb") = false)
    (himage : (formStr form.kind "model" == "image"
      && !(["png", "jpg", "jpeg", "webp"].contains (extOf file.name))) = false)
    (hpr : ((formStr form.pr "" == "1") || cfg.requirePr) = true) :
    POST cfg login form now nowPr rand env
      = ({ status := 200, ok := true,
           path := some (storagePath (formStr form.kind "model") (formStr form.brand "brand")
             (formStr form.model "model") now file.name),
           url := some (cdnUrl cfg (storagePath (formStr form.kind "model")
             (formStr form.brand "brand") (formStr form.model "model") now file.name)),
           repo := some cfg.ghRepo, branch := some cfg.ghBranch, pr := some env.prUrl },
         [RemoteCall.getHeadSha cfg.ghBranch,
          RemoteCall.createBranch env.headSha ("auto3dm/upload-" ++ Nat.repr nowPr ++ "-" ++ rand),
          RemoteCall.putFile
            (storagePath (formStr form.kind "model") (formStr form.brand "brand")
              (formStr form.model "model") now file.name)
            (base64 file.bytes)
            ("[auto3dm] upload " ++ storagePath (formStr form.kind "model")
              (formStr form.brand "brand") (formStr form.model "model") now file.name
              ++ " by @" ++ login.getD "")
            ("auto3dm/upload-" ++ Nat.repr nowPr ++ "-" ++ rand),
          RemoteCall.openPr ("auto3dm/upload-" ++ Nat.repr nowPr ++ "-" ++ rand) cfg.ghBranch
            ("[auto3dm] upload " ++ storagePath (formStr form.kind "model")
              (formStr form.brand "brand") (formStr form.model "model") now file.name)]) := by
  unfold POST
  rw [henv, hauth, hfile]
  simp only [hmodel, himage, hpr]
  rfl

theorem DELETE_outside_roots (cfg : Config) (login : Option String) (p : String)
    (nowPr : Nat) (rand : String) (env : RemoteEnv)
    (henv : badEnv cfg = false) (hauth : requireAuthAllowed cfg login = true)
    (hp : (p == "") = false)
    (hroot : (strStartsWith "models/" p || strStartsWith "images/" p) = false) :
    DELETE cfg login (some p) nowPr rand env
      = ({ status := 400, ok := false, error := some "Only models/ or images/ allowed" }, []) := by
  unfold DELETE
  rw [henv, hauth]
  simp only [hp, hroot]
  rfl

/-! ### Claim theorems -/

/-- C6: the storage-path derivation is a pure function of
`(kind, brand, model, filename, timestamp)`: identical inputs give identical
paths, and two derivations agreeing on everything but the timestamp give
distinct paths whenever the timestamps differ. -/
theorem storagePath_pure_and_timestamp_unique :
    (∀ (k b m f : String) (t : Nat), storagePath k b m t f = storagePath k b m t f) ∧
    (∀ (k b m f : String) (t1 t2 : Nat), t1 ≠ t2 →
      storagePath k b m t1 f ≠ storagePath k b m t2 f) :=
  ⟨fun _ _ _ _ _ => rfl,
   fun k b m f _ _ hne h => hne (storagePath_ts_injective k b m f h)⟩

theorem storagePath_pure_and_timestamp_unique_witness :
    storagePath "image" "Kia" "Carnival" 1700000000000 "preview.JPG"
      ≠ storagePath "image" "Kia" "Carnival" 1700000000001 "preview.JPG" :=
  storagePath_pure_and_timestamp_unique.2 "image" "Kia" "Carnival" "preview.JPG"
    1700000000000 1700000000001 (by decide)

/-- C8 counterexample: the input `"é"` consists of a single disallowed
(non-alphanumeric) character, yet `slug` maps it to `"e"`, not to the
placeholder `"x"`: NFKD decomposes `é` to `e` plus a combining accent and
the accent is stripped, leaving an alphanumeric character. -/
theorem slug_only_disallowed_not_placeholder :
    (∀ c ∈ ("é" : String).data, isAlnum c = false) ∧ slug "é" = "e" ∧ ("e" : String) ≠ "x" := by
  refine ⟨?_, by decide, by decide⟩
  decide

/-- C8 (amended): the namespace normalization never yields an empty segment,
and whenever every character of the input decomposes under NFKD to only
non-alphanumeric characters (in particular for the empty input), the result
is the fixed placeholder token `x`. -/
theorem slug_nonempty_and_placeholder (s : String) :
    slug s ≠ "" ∧
      ((∀ c ∈ s.data, ∀ d ∈ nfkd c, isAlnum d = false) → slug s = "x") :=
  ⟨slug_ne_empty s, fun h => slug_placeholder h⟩

theorem slug_nonempty_and_placeholder_witness :
    slug "!!!" ≠ "" ∧ slug "!!!" = "x" :=
  ⟨(slug_nonempty_and_placeholder "!!!").1,
   (slug_nonempty_and_placeholder "!!!").2 (by decide)⟩

theorem storagePath_kia (T : Nat) :
    storagePath "image" "Kia" "Carnival" T "preview.JPG"
      = "images/kia/carnival/" ++ Nat.repr T ++ "-preview.JPG" := by
  have h1 : slug "Kia" = "kia" := rfl
  have h2 : slug "Carnival" = "carnival" := rfl
  have h3 : safeName "preview.JPG" = "preview.JPG" := rfl
  apply String.ext
  rw [storagePath, h1, h2, h3]
  simp [String.data_append, List.append_assoc]

/-- C5: an image upload of `preview.JPG` classified `("Kia", "Carnival")` at
timestamp `T` is stored at `images/kia/carnival/T-preview.JPG` (namespace
lowercased, timestamp literal, filename kept by sanitization), and the
returned public URL is the CDN URL containing exactly that path. -/
theorem upload_scenario_kia_carnival (cfg : Config) (login : Option String)
    (env : RemoteEnv) (bytes : List Nat) (prField : Option String)
    (T nowPr : Nat) (rand : String)
    (henv : badEnv cfg = false) (hauth : requireAuthAllowed cfg login = true) :
    (POST cfg login
        { file := some { name := "preview.JPG", bytes := bytes }, brand := some "Kia",
          model := some "Carnival", kind := some "image", pr := prField }
        T nowPr rand env).1.path
      = some ("images/kia/carnival/" ++ Nat.repr T ++ "-preview.JPG") ∧
    (POST cfg login
        { file := some { name := "preview.JPG", bytes := bytes }, brand := some "Kia",
          model := some "Carnival", kind := some "image", pr := prField }
        T nowPr rand env).1.url
      = some ("https://cdn.jsdelivr.net/gh/" ++ cfg.ghRepo ++ "@" ++ cfg.ghBranch ++ "/"
          ++ ("images/kia/carnival/" ++ Nat.repr T ++ "-preview.JPG")) := by
  unfold POST
  rw [henv, hauth]
  cases hfp : ((formStr prField "" == "1") || cfg.requirePr) <;>
    simp only [hfp] <;>
    exact ⟨congrArg some (storagePath_kia T),
      congrArg some (congrArg (cdnUrl cfg) (storagePath_kia T))⟩

theorem upload_scenario_kia_carnival_witness :
    (POST cfgA (some "alice") formA 1700000000000 1700000000001 "abc123" envA).1.path
      = some ("images/kia/carnival/" ++ Nat.repr 1700000000000 ++ "-preview.JPG") :=
  (upload_scenario_kia_carnival cfgA (some "alice") envA [1, 2, 3] none
    1700000000000 1700000000001 "abc123" (by decide) (by decide)).1

/-- C1: when the review path is selected (`pr` form flag set to `1` or the
`REQUIRE_PR` configuration), the handler records a branch-creation call and a
pull-request-open call against the remote API, the response carries the
pull-request URL, and the returned public URL's ref component is the
configured target branch, which differs from the generated review branch;
when the direct path is selected, the response carries no pull-request
URL. -/
theorem upload_review_vs_direct (cfg : Config) (login : Option String) (form : UploadForm)
    (file : FileData) (now nowPr : Nat) (rand : String) (env : RemoteEnv)
    (henv : badEnv cfg = false) (hauth : requireAuthAllowed cfg login = true)
    (hfile : form.file = some file)
    (hmodel : (formStr form.kind "model" == "model" && extOf file.name != "glb") = false)
    (himage : (formStr form.kind "model" == "image"
      && !(["png", "jpg", "jpeg", "webp"].contains (extOf file.name))) = false)
    (hbr : strStartsWith "auto3dm/upload-" cfg.ghBranch = false)
    (hat1 : '@' ∉ cfg.ghRepo.data) (hat2 : '@' ∉ cfg.ghBranch.data)
    (hsl : '/' ∉ cfg.ghBranch.data) :
    (((formStr form.pr "" == "1") || cfg.requirePr) = true →
      RemoteCall.createBranch env.headSha ("auto3dm/upload-" ++ Nat.repr nowPr ++ "-" ++ rand)
          ∈ (POST cfg login form now nowPr rand env).2 ∧
      (∃ title, RemoteCall.openPr ("auto3dm/upload-" ++ Nat.repr nowPr ++ "-" ++ rand)
          cfg.ghBranch title ∈ (POST cfg login form now nowPr rand env).2) ∧
      (POST cfg login form now nowPr rand env).1.pr = some env.prUrl ∧
      (∃ p, (POST cfg login form now nowPr rand env).1.url = some (cdnUrl cfg p) ∧
        urlRef (cdnUrl cfg p) = cfg.ghBranch) ∧
      cfg.ghBranch ≠ "auto3dm/upload-" ++ Nat.repr nowPr ++ "-" ++ rand) ∧
    (((formStr form.pr "" == "1") || cfg.requirePr) = false →
      (POST cfg login form now nowPr rand env).1.pr = none) := by
  constructor
  · intro hpr
    rw [POST_review_eq cfg login form file now nowPr rand env henv hauth hfile hmodel himage hpr]
    refine ⟨?_, ?_, rfl, ⟨_, rfl, urlRef_cdnUrl cfg _ hat1 hat2 hsl⟩, ?_⟩
    · exact List.mem_cons_of_mem _ (List.mem_cons_self _ _)
    · refine ⟨"[auto3dm] upload " ++ storagePath (formStr form.kind "model")
        (formStr form.brand "brand") (formStr form.model "model") now file.name, ?_⟩
      exact List.mem_cons_of_mem _ (List.mem_cons_of_mem _
        (List.mem_cons_of_mem _ (List.mem_cons_self _ _)))
    · intro he
      exact ne_of_not_strStartsWith hbr
        (he.trans (by rw [String.append_assoc, String.append_assoc]))
  · intro hpr
    rw [POST_direct_eq cfg login form file now nowPr rand env henv hauth hfile hmodel himage hpr]

theorem upload_review_vs_direct_witness :
    RemoteCall.createBranch envA.headSha ("auto3dm/upload-" ++ Nat.repr 6 ++ "-" ++ "rnd")
        ∈ (POST cfgA (some "alice") formPr 5 6 "rnd" envA).2 ∧
    (POST cfgA (some "alice") formPr 5 6 "rnd" envA).1.pr = some envA.prUrl := by
  have h := (upload_review_vs_direct cfgA (some "alice") formPr
    { name := "preview.JPG", bytes := [1, 2, 3] } 5 6 "rnd" envA
    (by decide) (by decide) rfl (by decide) (by decide) (by decide) (by decide) (by decide)
    (by decide)).1 (by decide)
  exact ⟨h.1, h.2.2.1⟩

/-- C2: a mutating request (upload or delete) is permitted exactly when an
authenticated (non-empty) login is present and either the allow-list is empty
or the login appears in it; an unpermitted request fails with 403 Forbidden
and issues no remote call. -/
theorem mutating_requires_allowlisted_login (cfg : Config) (login : Option String)
    (form : UploadForm) (body : Option String) (now nowPr : Nat) (rand : String)
    (env : RemoteEnv) (henv : badEnv cfg = false) :
    (requireAuthAllowed cfg login = true ↔
      ∃ l, login = some l ∧ l ≠ ""
        ∧ (cfg.allowedUploaders = [] ∨ l ∈ cfg.allowedUploaders)) ∧
    (requireAuthAllowed cfg login = false →
      (POST cfg login form now nowPr rand env).1.status = 403 ∧
      (POST cfg login form now nowPr rand env).1.error = some "Forbidden" ∧
      (POST cfg login form now nowPr rand env).2 = [] ∧
      (DELETE cfg login body nowPr rand env).1.status = 403 ∧
      (DELETE cfg login body nowPr rand env).1.error = some "Forbidden" ∧
      (DELETE cfg login body nowPr rand env).2 = []) := by
  constructor
  · cases login with
    | none => simp [requireAuthAllowed, jsTruthy]
    | some l =>
      simp only [requireAuthAllowed, jsTruthy, Option.getD_some, Bool.and_eq_true,
        Bool.not_eq_true', beq_eq_false_iff_ne, ne_eq, Bool.or_eq_true, List.isEmpty_iff,
        List.contains, List.elem_eq_mem, decide_eq_true_eq, Option.some.injEq]
      constructor
      · rintro ⟨h1, h2⟩
        exact ⟨l, rfl, h1, h2⟩
      · rintro ⟨l', hl, h1, h2⟩
        cases hl
        exact ⟨h1, h2⟩
  · intro hna
    rw [POST_forbidden cfg login form now nowPr rand env henv hna,
      DELETE_forbidden cfg login body nowPr rand env henv hna]
    exact ⟨rfl, rfl, rfl, rfl, rfl, rfl⟩

theorem mutating_requires_allowlisted_login_witness :
    (POST cfgA none formA 1 2 "rnd" envA).1.status = 403 ∧
    (POST cfgA none formA 1 2 "rnd" envA).2 = [] ∧
    (DELETE cfgA none (some "models/x") 2 "rnd" envA).1.status = 403 ∧
    (DELETE cfgA none (some "models/x") 2 "rnd" envA).2 = [] := by
  have h := (mutating_requires_allowlisted_login cfgA none formA (some "models/x")
    1 2 "rnd" envA (by decide)).2 (by decide)
  exact ⟨h.1, h.2.2.1, h.2.2.2.1, h.2.2.2.2.2⟩

/-- C3 counterexample: an image upload of 4,718,593 bytes (one byte over the
4.5 MB ceiling the claim refers to) is not rejected: the handler returns
status 200 — not 413 — and issues the remote write call. -/
theorem oversize_upload_not_rejected :
    (POST cfgA (some "alice")
      { file := some { name := "big.png", bytes := List.replicate 4718593 0 },
        brand := some "b", model := some "m", kind := some "image", pr := none }
      7 8 "rnd" envA).1.status = 200 ∧
    (POST cfgA (some "alice")
      { file := some { name := "big.png", bytes := List.replicate 4718593 0 },
        brand := some "b", model := some "m", kind := some "image", pr := none }
      7 8 "rnd" envA).1.status ≠ 413 ∧
    (POST cfgA (some "alice")
      { file := some { name := "big.png", bytes := List.replicate 4718593 0 },
        brand := some "b", model := some "m", kind := some "image", pr := none }
      7 8 "rnd" envA).2 ≠ [] := by
  rw [POST_direct_eq cfgA (some "alice")
    { file := some { name := "big.png", bytes := List.replicate 4718593 0 },
      brand := some "b", model := some "m", kind := some "image", pr := none }
    { name := "big.png", bytes := List.replicate 4718593 0 }
    7 8 "rnd" envA (by decide) (by decide) rfl (by decide) (by decide) (by decide)]
  refine ⟨rfl, ?_, ?_⟩
  · decide
  · exact List.cons_ne_nil _ _

/-- C3 (amended): the upload handler enforces no payload-size ceiling at all:
for every payload, a request that passes the extension check returns 200 —
never 413 — and proceeds to the remote API call, regardless of the payload's
size; in particular a payload at the 4.5 MB ceiling and one over it are
treated identically. -/
theorem upload_no_size_ceiling (cfg : Config) (login : Option String) (form : UploadForm)
    (file : FileData) (now nowPr : Nat) (rand : String) (env : RemoteEnv)
    (henv : badEnv cfg = false) (hauth : requireAuthAllowed cfg login = true)
    (hfile : form.file = some file)
    (hmodel : (formStr form.kind "model" == "model" && extOf file.name != "glb") = false)
    (himage : (formStr form.kind "model" == "image"
      && !(["png", "jpg", "jpeg", "webp"].contains (extOf file.name))) = false) :
    (POST cfg login form now nowPr rand env).1.status = 200 ∧
    (POST cfg login form now nowPr rand env).1.status ≠ 413 ∧
    (POST cfg login form now nowPr rand env).2 ≠ [] := by
  cases hpr : ((formStr form.pr "" == "1") || cfg.requirePr)
  · rw [POST_direct_eq cfg login form file now nowPr rand env henv hauth hfile hmodel himage hpr]
    refine ⟨rfl, fun h => ?_, List.cons_ne_nil _ _⟩
    exact absurd (show (200 : Nat) = 413 from h) (by decide)
  · rw [POST_review_eq cfg login form file now nowPr rand env henv hauth hfile hmodel himage hpr]
    refine ⟨rfl, fun h => ?_, List.cons_ne_nil _ _⟩
    exact absurd (show (200 : Nat) = 413 from h) (by decide)

theorem upload_no_size_ceiling_witness :
    (POST cfgA (some "alice") formA 1 2 "rnd" envA).1.status = 200 ∧
    (POST cfgA (some "alice") formA 1 2 "rnd" envA).1.status ≠ 413 ∧
    (POST cfgA (some "alice") formA 1 2 "rnd" envA).2 ≠ [] :=
  upload_no_size_ceiling cfgA (some "alice") formA
    { name := "preview.JPG", bytes := [1, 2, 3] } 1 2 "rnd" envA
    (by decide) (by decide) rfl (by decide) (by decide)

/-- C4 counterexample: deleting the path `secret.txt`, which lies outside the
`models/` and `images/` roots, fails with status 400 and the message
`Only models/ or images/ allowed` — not with Forbidden (403) — and no remote
call is attempted. -/
theorem delete_outside_roots_not_forbidden :
    (DELETE cfgA (some "alice") (some "secret.txt") 9 "rnd" envA).1.status = 400 ∧
    (DELETE cfgA (some "alice") (some "secret.txt") 9 "rnd" envA).1.status ≠ 403 ∧
    (DELETE cfgA (some "alice") (some "secret.txt") 9 "rnd" envA).1.error
      = some "Only models/ or images/ allowed" ∧
    (DELETE cfgA (some "alice") (some "secret.txt") 9 "rnd" envA).1.error
      ≠ some "Forbidden" ∧
    (DELETE cfgA (some "alice") (some "secret.txt") 9 "rnd" envA).2 = [] := by
  decide

/-- C4 (amended): a delete request whose non-empty path starts with neither
`models/` nor `images/` fails with status 400 Bad Request and the message
`Only models/ or images/ allowed` (not with Forbidden/403), and no remote API
call is attempted. -/
theorem delete_outside_roots_bad_request (cfg : Config) (login : Option String)
    (p : String) (nowPr : Nat) (rand : String) (env : RemoteEnv)
    (henv : badEnv cfg = false) (hauth : requireAuthAllowed cfg login = true)
    (hp : (p == "") = false)
    (hroot : (strStartsWith "models/" p || strStartsWith "images/" p) = false) :
    (DELETE cfg login (some p) nowPr rand env).1.status = 400 ∧
    (DELETE cfg login (some p) nowPr rand env).1.error
      = some "Only models/ or images/ allowed" ∧
    (DELETE cfg login (some p) nowPr rand env).1.status ≠ 403 ∧
    (DELETE cfg login (some p) nowPr rand env).2 = [] := by
  rw [DELETE_outside_roots cfg login p nowPr rand env henv hauth hp hroot]
  exact ⟨rfl, rfl, by decide, rfl⟩

theorem delete_outside_roots_bad_request_witness :
    (DELETE cfgA (some "alice") (some "etc/passwd") 9 "rnd" envA).1.status = 400 ∧
    (DELETE cfgA (some "alice") (some "etc/passwd") 9 "rnd" envA).1.error
      = some "Only models/ or images/ allowed" ∧
    (DELETE cfgA (some "alice") (some "etc/passwd") 9 "rnd" envA).1.status ≠ 403 ∧
    (DELETE cfgA (some "alice") (some "etc/passwd") 9 "rnd" envA).2 = [] :=
  delete_outside_roots_bad_request cfgA (some "alice") "etc/passwd" 9 "rnd" envA
    (by decide) (by decide) (by decide) (by decide)

/-- C7: an upload whose extension is not in the category's allow-list (model:
only `glb`; image: `png`/`jpg`/`jpeg`/`webp`) is rejected with a 400
validation error — for the model category with the message
`Only .glb allowed` — before any remote API call. -/
theorem upload_rejects_disallowed_extension (cfg : Config) (login : Option String)
    (form : UploadForm) (file : FileData) (now nowPr : Nat) (rand : String)
    (env : RemoteEnv)
    (henv : badEnv cfg = false) (hauth : requireAuthAllowed cfg login = true)
    (hfile : form.file = some file) :
    ((formStr form.kind "model" == "model" && extOf file.name != "glb") = true →
      (POST cfg login form now nowPr rand env).1.status = 400 ∧
      (POST cfg login form now nowPr rand env).1.error = some "Only .glb allowed" ∧
      (POST cfg login form now nowPr rand env).2 = []) ∧
    ((formStr form.kind "model" == "model" && extOf file.name != "glb") = false →
      (formStr form.kind "model" == "image"
        && !(["png", "jpg", "jpeg", "webp"].contains (extOf file.name))) = true →
      (POST cfg login form now nowPr rand env).1.status = 400 ∧
      (POST cfg login form now nowPr rand env).1.error = some "Images only: png/jpg/webp" ∧
      (POST cfg login form now nowPr rand env).2 = []) := by
  constructor
  · intro hm
    rw [POST_reject_model_ext cfg login form file now nowPr rand env henv hauth hfile hm]
    exact ⟨rfl, rfl, rfl⟩
  · intro hm hi
    rw [POST_reject_image_ext cfg login form file now nowPr rand env henv hauth hfile hm hi]
    exact ⟨rfl, rfl, rfl⟩

theorem upload_rejects_disallowed_extension_witness :
    (POST cfgA (some "alice")
      { file := some { name := "part.stl", bytes := [1] }, brand := some "Kia",
        model := some "Carnival", kind := some "model", pr := none }
      3 4 "rnd" envA).1.status = 400 ∧
    (POST cfgA (some "alice")
      { file := some { name := "part.stl", bytes := [1] }, brand := some "Kia",
        model := some "Carnival", kind := some "model", pr := none }
      3 4 "rnd" envA).1.error = some "Only .glb allowed" ∧
    (POST cfgA (some "alice")
      { file := some { name := "part.stl", bytes := [1] }, brand := some "Kia",
        model := some "Carnival", kind := some "model", pr := none }
      3 4 "rnd" envA).2 = [] :=
  (upload_rejects_disallowed_extension cfgA (some "alice")
    { file := some { name := "part.stl", bytes := [1] }, brand := some "Kia",
      model := some "Carnival", kind := some "model", pr := none }
    { name := "part.stl", bytes := [1] } 3 4 "rnd" envA
    (by decide) (by decide) rfl).1 (by decide)

theorem GETlist_ok_eq (cfg : Config) (login : Option String) (rawPfx : String)
    (tree : List TreeEntry)
    (henv : badEnv cfg = false) (hauth : requireAuthAllowed cfg login = true) :
    GETlist cfg login rawPfx tree
      = ({ status := 200, ok := true, repo := some cfg.ghRepo, branch := some cfg.ghBranch,
           items := (List.insertionSort pathGe
             ((tree.filter (fun n => n.type == "blob"
                && (stripLeadingSlashes rawPfx == ""
                  || strStartsWith (stripLeadingSlashes rawPfx ++ "/") n.path))).map
               (viewEntry cfg))).take 200 },
         [RemoteCall.getTree cfg.ghBranch]) := by
  unfold GETlist
  rw [henv, hauth]
  rfl

theorem take_sort_spec (M : List ListItem) :
    ((List.insertionSort pathGe M).take 200).length ≤ 200 ∧
    List.Pairwise pathGe ((List.insertionSort pathGe M).take 200) ∧
    (∀ it ∈ (List.insertionSort pathGe M).take 200, it ∈ M) ∧
    (M.length ≤ 200 → ∀ x ∈ M, x ∈ (List.insertionSort pathGe M).take 200) := by
  haveI : IsTotal ListItem pathGe := ⟨pathGe_total⟩
  haveI : IsTrans ListItem pathGe := ⟨fun a b c => pathGe_trans a b c⟩
  have hperm := List.perm_insertionSort pathGe M
  refine ⟨List.length_take_le 200 _, ?_, ?_, ?_⟩
  · exact List.Pairwise.sublist (List.take_sublist _ _)
      (List.sorted_insertionSort pathGe M)
  · intro it hit
    exact hperm.mem_iff.mp (List.Sublist.mem hit (List.take_sublist _ _))
  · intro hlen x hx
    have hlen2 : (List.insertionSort pathGe M).length ≤ 200 := by
      rw [hperm.length_eq]
      exact hlen
    rw [List.take_of_length_le hlen2]
    exact hperm.mem_iff.mpr hx

/-- C9 counterexample: with prefix `models`, the blob `models-old/x` — whose
path does start with the string `models` — is not returned by the list
handler: the filter requires the path to start with `models/` (prefix plus
slash), so the claim's "starts with the prefix" reading is refuted. -/
theorem list_excludes_entry_matching_bare_prefix :
    strStartsWith "models" "models-old/x" = true ∧
    (GETlist cfgA (some "alice") "models"
      [{ type := "blob", path := "models-old/x", size := some 1, sha := "s" }]).1.status
        = 200 ∧
    (GETlist cfgA (some "alice") "models"
      [{ type := "blob", path := "models-old/x", size := some 1, sha := "s" }]).1.items
        = [] := by
  decide

/-- C9 (amended): for every list request with a non-empty namespace prefix,
each returned item is the view of a blob tree entry whose path starts with
the prefix followed by `/`; the items are ordered by path descending (each
item's path is not JS-less-than any later item's path); at most 200 items
are returned, with no further pagination; and whenever at most 200 entries
match, every matching blob's view appears among the items. -/
theorem list_blobs_prefix_sorted_capped (cfg : Config) (login : Option String)
    (pfx : String) (tree : List TreeEntry)
    (henv : badEnv cfg = false) (hauth : requireAuthAllowed cfg login = true)
    (hstrip : stripLeadingSlashes pfx = pfx) (hne : pfx ≠ "") :
    (GETlist cfg login pfx tree).1.items.length ≤ 200 ∧
    List.Pairwise pathGe (GETlist cfg login pfx tree).1.items ∧
    (∀ it ∈ (GETlist cfg login pfx tree).1.items, ∃ n, n ∈ tree ∧
      n.type = "blob" ∧ strStartsWith (pfx ++ "/") n.path = true ∧ it = viewEntry cfg n) ∧
    ((tree.filter (fun n => n.type == "blob"
        && (pfx == "" || strStartsWith (pfx ++ "/") n.path))).length ≤ 200 →
      ∀ n ∈ tree, n.type = "blob" → strStartsWith (pfx ++ "/") n.path = true →
        viewEntry cfg n ∈ (GETlist cfg login pfx tree).1.items) := by
  have hpe : (pfx == "") = false := beq_eq_false_iff_ne.mpr hne
  have hitems : (GETlist cfg login pfx tree).1.items
      = (List.insertionSort pathGe
          ((tree.filter (fun n => n.type == "blob"
            && (pfx == "" || strStartsWith (pfx ++ "/") n.path))).map
            (viewEntry cfg))).take 200 := by
    rw [GETlist_ok_eq cfg login pfx tree henv hauth, hstrip]
  obtain ⟨hl, hpw, hmem, hcomp⟩ := take_sort_spec
    ((tree.filter (fun n => n.type == "blob"
      && (pfx == "" || strStartsWith (pfx ++ "/") n.path))).map (viewEntry cfg))
  refine ⟨?_, ?_, ?_, ?_⟩
  · rw [hitems]
    exact hl
  · rw [hitems]
    exact hpw
  · intro it hit
    rw [hitems] at hit
    rcases List.mem_map.mp (hmem it hit) with ⟨n, hn, rfl⟩
    rcases List.mem_filter.mp hn with ⟨hn1, hn2⟩
    rw [Bool.and_eq_true, Bool.or_eq_true] at hn2
    rcases hn2 with ⟨ht, hor⟩
    refine ⟨n, hn1, beq_iff_eq.mp ht, ?_, rfl⟩
    rcases hor with h | h
    · rw [hpe] at h
      cases h
    · exact h
  · intro hlen n hn htype hpre
    rw [hitems]
    refine hcomp (by rw [List.length_map]; exact hlen) _ (List.mem_map.mpr ⟨n, ?_, rfl⟩)
    refine List.mem_filter.mpr ⟨hn, ?_⟩
    rw [Bool.and_eq_true, Bool.or_eq_true]
    exact ⟨beq_iff_eq.mpr htype, Or.inr hpre⟩

theorem list_blobs_prefix_sorted_capped_witness :
    (GETlist cfgA (some "alice") "models" treeA).1.items.length ≤ 200 ∧
    List.Pairwise pathGe (GETlist cfgA (some "alice") "models" treeA).1.items := by
  have h := list_blobs_prefix_sorted_capped cfgA (some "alice") "models" treeA
    (by decide) (by decide) (by decide) (by decide)
  exact ⟨h.1, h.2.1⟩

theorem storagePath_images_root {k : String} (hk : (k == "model") = false)
    (b m f : String) (t : Nat) :
    storagePath k b m t f
      = "images/" ++ (slug b ++ "/" ++ slug m ++ "/" ++ Nat.repr t ++ "-" ++ safeName f) := by
  apply String.ext
  simp [storagePath, hk, String.data_append, List.append_assoc]

/-- C10: for an upload whose resolved `kind` field is neither `model` nor
`image` (any other non-empty string), no extension validation is applied —
the upload succeeds for every file name — and the file is stored under the
`images/` namespace root. -/
theorem unknown_kind_skips_validation (cfg : Config) (login : Option String)
    (form : UploadForm) (file : FileData) (now nowPr : Nat) (rand : String)
    (env : RemoteEnv)
    (henv : badEnv cfg = false) (hauth : requireAuthAllowed cfg login = true)
    (hfile : form.file = some file)
    (hk1 : (formStr form.kind "model" == "model") = false)
    (hk2 : (formStr form.kind "model" == "image") = false) :
    (POST cfg login form now nowPr rand env).1.status = 200 ∧
    (POST cfg login form now nowPr rand env).1.ok = true ∧
    (POST cfg login form now nowPr rand env).1.path
      = some ("images/" ++ (slug (formStr form.brand "brand") ++ "/"
          ++ slug (formStr form.model "model") ++ "/" ++ Nat.repr now ++ "-"
          ++ safeName file.name)) ∧
    (POST cfg login form now nowPr rand env).2 ≠ [] := by
  have hmodel : (formStr form.kind "model" == "model" && extOf file.name != "glb") = false := by
    rw [hk1]
    rfl
  have himage : (formStr form.kind "model" == "image"
      && !(["png", "jpg", "jpeg", "webp"].contains (extOf file.name))) = false := by
    rw [hk2]
    rfl
  have hpath := storagePath_images_root hk1 (formStr form.brand "brand")
    (formStr form.model "model") file.name now
  cases hpr : ((formStr form.pr "" == "1") || cfg.requirePr)
  · rw [POST_direct_eq cfg login form file now nowPr rand env henv hauth hfile hmodel himage hpr]
    exact ⟨rfl, rfl, congrArg some hpath, List.cons_ne_nil _ _⟩
  · rw [POST_review_eq cfg login form file now nowPr rand env henv hauth hfile hmodel himage hpr]
    exact ⟨rfl, rfl, congrArg some hpath, List.cons_ne_nil _ _⟩

theorem unknown_kind_skips_validation_witness :
    (POST cfgA (some "alice")
      { file := some { name := "tool.exe", bytes := [0] }, brand := some "Ford",
        model := some "Focus", kind := some "zip", pr := none }
      11 12 "rnd" envA).1.status = 200 ∧
    (POST cfgA (some "alice")
      { file := some { name := "tool.exe", bytes := [0] }, brand := some "Ford",
        model := some "Focus", kind := some "zip", pr := none }
      11 12 "rnd" envA).1.path
      = some ("images/" ++ (slug "Ford" ++ "/" ++ slug "Focus" ++ "/" ++ Nat.repr 11 ++ "-"
          ++ safeName "tool.exe")) := by
  have h := unknown_kind_skips_validation cfgA (some "alice")
    { file := some { name := "tool.exe", bytes := [0] }, brand := some "Ford",
      model := some "Focus", kind := some "zip", pr := none }
    { name := "tool.exe", bytes := [0] } 11 12 "rnd" envA
    (by decide) (by decide) rfl (by decide) (by decide)
  exact ⟨h.1, h.2.2.1⟩

end Auto3d
